import Mathlib

/-!
Verification development for the CoCreate pitch-dashboard repository.

The repository is a set of Streamlit dashboards over pandas DataFrames
("submission tables").  We embed the data-cleaning and aggregation pipeline
shallowly:

* a DataFrame is a `Table`: an ordered header and ordered rows of cells;
* a cell is `Option String` (`none` models a pandas `NaN` / missing value);
* the cleaning lambdas of `load_data` in `CoCreate Phase II/Phase II
  Dashboard.py`, the metric expressions of `app.py`, the
  `value_counts`-based aggregations, the key-country summary, the word
  frequency extraction and the CSV export are embedded as total Lean
  functions, with Python exceptions modelled by `Except`/`Option`.

All definitions are executable so that concrete scenarios evaluate by
`decide`/`rfl`.
-/

namespace CoCreate

/-- A cell of a submission table. `none` models a missing value (pandas NaN);
`some s` models a present (string-rendered) value. -/
abbrev Cell := Option String

/-- A submission table: an ordered header (column names) and ordered rows of
cells, mirroring a pandas DataFrame at string level. -/
structure Table where
  header : List String
  rows : List (List Cell)
  deriving DecidableEq, Repr

/-- A table is well formed (rectangular) when each row has exactly one cell
per column, as every pandas DataFrame does. -/
def WF (t : Table) : Prop := ∀ r ∈ t.rows, r.length = t.header.length

instance (t : Table) : Decidable (WF t) := by
  unfold WF; infer_instance

/-- Look up the cell of column `c` in row `r` (headers and the row walked in
parallel; first matching header wins, as for pandas column labels). -/
def lookupCell : List String → String → List Cell → Option Cell
  | [], _, _ => none
  | _ :: _, _, [] => none
  | h :: hs, c, x :: xs => if h = c then some x else lookupCell hs c xs

/-- Column access `df[c]` : the column `c` of the table, `none` when the column is absent
(the code guards every access with `c in df.columns`). -/
def getColumn (t : Table) (c : String) : Option (List Cell) :=
  if c ∈ t.header then
    some (t.rows.map (fun r => (lookupCell t.header c r).getD none))
  else none

/-- Replace the cell of an existing column `c` in row `r` by `v`. -/
def setRow : List String → String → List Cell → Cell → List Cell
  | [], _, r, _ => r
  | _ :: _, _, [], _ => []
  | h :: hs, c, x :: xs, v => if h = c then v :: xs else x :: setRow hs c xs v

/-- Column assignment `df[c] = vals` in pandas.  Overwrites the column when it
exists, otherwise appends it on the right. -/
def setCol (t : Table) (c : String) (vals : List Cell) : Table :=
  if c ∈ t.header then
    ⟨t.header, List.zipWith (fun r v => setRow t.header c r v) t.rows vals⟩
  else
    ⟨t.header ++ [c], List.zipWith (fun r v => r ++ [v]) t.rows vals⟩

/-! ### Normalizer (Phase II `load_data`, lines 42-56) -/

/-- Python `str.lower()` (ASCII case folding, which covers every value in
these datasets), written over the character list so that the kernel can
evaluate it. -/
def pyLower (s : String) : String := String.mk (s.data.map Char.toLower)

/-- Embeds the lambda at lines 43-45 of `Phase II Dashboard.py`:
the expression mapping a non-NA value whose lower-casing is `complete` or
`completed` to `complete` and anything else to `partial`. -/
def cleanResponseType : Cell → String
  | some s => if pyLower s ∈ ["complete", "completed"] then "complete" else "partial"
  | none => "partial"

/-- Lines 42-47: derive `Response Type Cleaned`; when the raw column is
absent every record receives the scalar fallback `unknown`. -/
def deriveResponseCleaned (t : Table) : Table :=
  match getColumn t "Response Type" with
  | some col =>
      setCol t "Response Type Cleaned" (col.map (fun x => some (cleanResponseType x)))
  | none =>
      setCol t "Response Type Cleaned" (t.rows.map (fun _ => some "unknown"))

/-- The negative-token list of line 52. -/
def negativeTokens : List String := ["no", "n", "na", "n/a", "n/a.", "not sure", "none"]

/-- Column name used at line 50. -/
def aliColName : String := "Do you have an Alibaba.com account?"

/-- Embeds the lambda at lines 51-53:
the expression mapping a non-NA value whose lower-casing is outside the
negative-token list to `Yes` and anything else to `No`. -/
def aliAccountStatus : Cell → String
  | some s => if pyLower s ∈ negativeTokens then "No" else "Yes"
  | none => "No"

/-- Lines 49-56: derive `Alibaba Account Status`; when the raw column is
absent every record receives the scalar fallback `Unknown`. -/
def deriveAliStatus (t : Table) : Table :=
  match getColumn t aliColName with
  | some col =>
      setCol t "Alibaba Account Status" (col.map (fun x => some (aliAccountStatus x)))
  | none =>
      setCol t "Alibaba Account Status" (t.rows.map (fun _ => some "Unknown"))

/-! ### Column access/assignment lemmas -/

theorem lookupCell_setRow (hdr : List String) (c : String) :
    ∀ (r : List Cell) (v : Cell), c ∈ hdr → r.length = hdr.length →
      lookupCell hdr c (setRow hdr c r v) = some v := by
  induction hdr with
  | nil => intro r v hc _; exact absurd hc (List.not_mem_nil c)
  | cons h hs ih =>
    intro r v hc hlen
    cases r with
    | nil => simp at hlen
    | cons x xs =>
      by_cases hhc : h = c
      · simp [setRow, lookupCell, hhc]
      · have hc' : c ∈ hs := by
          rcases List.mem_cons.mp hc with h1 | h1
          · exact absurd h1.symm hhc
          · exact h1
        have hlen' : xs.length = hs.length := by simpa using hlen
        simp [setRow, lookupCell, hhc, ih xs v hc' hlen']

theorem lookupCell_append (hdr : List String) (c : String) :
    ∀ (r : List Cell) (v : Cell), c ∉ hdr → r.length = hdr.length →
      lookupCell (hdr ++ [c]) c (r ++ [v]) = some v := by
  induction hdr with
  | nil =>
    intro r v _ hlen
    have : r = [] := List.length_eq_zero.mp (by simpa using hlen)
    simp [this, lookupCell]
  | cons h hs ih =>
    intro r v hc hlen
    cases r with
    | nil => simp at hlen
    | cons x xs =>
      have hhc : h ≠ c := fun h1 => hc (List.mem_cons.mpr (Or.inl h1.symm))
      have hc' : c ∉ hs := fun h1 => hc (List.mem_cons.mpr (Or.inr h1))
      have hlen' : xs.length = hs.length := by simpa using hlen
      simp [lookupCell, hhc, ih xs v hc' hlen']

theorem map_zipWith_eq_right {R V : Type} (f : R → V → R) (g : R → V) :
    ∀ (rows : List R) (vals : List V), rows.length = vals.length →
      (∀ r ∈ rows, ∀ v, g (f r v) = v) →
      (List.zipWith f rows vals).map g = vals := by
  intro rows
  induction rows with
  | nil => intro vals hlen _; simp [(List.length_eq_zero.mp hlen.symm)]
  | cons r rs ih =>
    intro vals hlen hpt
    cases vals with
    | nil => simp at hlen
    | cons v vs =>
      have hlen' : rs.length = vs.length := by simpa using hlen
      simp [List.zipWith, hpt r (List.mem_cons_self r rs) v,
        ih vs hlen' (fun r' hr' => hpt r' (List.mem_cons.mpr (Or.inr hr')))]

/-- Retrieving a just-assigned column returns exactly the assigned values. -/
theorem getColumn_setCol (t : Table) (c : String) (vals : List Cell)
    (hWF : WF t) (hlen : vals.length = t.rows.length) :
    getColumn (setCol t c vals) c = some vals := by
  by_cases hc : c ∈ t.header
  · have : (List.zipWith (fun r v => setRow t.header c r v) t.rows vals).map
        (fun r => (lookupCell t.header c r).getD none) = vals := by
      apply map_zipWith_eq_right
      · exact hlen.symm
      · intro r hr v
        rw [lookupCell_setRow t.header c r v hc (hWF r hr)]
        rfl
    simp [setCol, getColumn, hc, this]
  · have hc2 : c ∈ t.header ++ [c] := List.mem_append.mpr (Or.inr (List.mem_singleton.mpr rfl))
    have : (List.zipWith (fun (r : List Cell) (v : Cell) => r ++ [v]) t.rows vals).map
        (fun r => (lookupCell (t.header ++ [c]) c r).getD none) = vals := by
      apply map_zipWith_eq_right
      · exact hlen.symm
      · intro r hr v
        rw [lookupCell_append t.header c r v hc (hWF r hr)]
        rfl
    simp [setCol, getColumn, hc, hc2, this]

theorem getColumn_length (t : Table) (c : String) (col : List Cell)
    (h : getColumn t c = some col) : col.length = t.rows.length := by
  by_cases hc : c ∈ t.header
  · simp [getColumn, hc] at h
    simp [← h]
  · simp [getColumn, hc] at h

/-! ### Loaders and the Phase II render skeleton -/

/-- Emptiness test `df.empty` in pandas: true when either axis has length zero. -/
def isEmptyDF (t : Table) : Bool := t.rows.isEmpty || t.header.isEmpty

/-- The `st.error` message emitted at line 60 of `Phase II Dashboard.py`
on a missing file. -/
def phase2ErrMsg : String :=
  "无法找到 \x27CoCreate Phase II/Update-PitchData-Phase2.csv\x27 文件。请确保文件路径与脚本所在目录结构匹配。"

/-- The `st.info` message emitted at line 578 when the table is empty. -/
def phase2FailInfo : String :=
  "数据加载失败，请检查文件路径与文件名是否正确，例如：`CoCreate Phase II/Update-PitchData-Phase2.csv`。"

/-- Result of the Phase II loader: a table together with an optional
user-facing error message. -/
structure LoadResult where
  table : Table
  errorMsg : Option String
  deriving DecidableEq

/-- Loader `load_data` of `Phase II Dashboard.py` (lines 31-61).  The external file
system is modelled as `Option Table`: `some df` is a parsed CSV, `none` is
"file not found".  On success the two derived columns are added; on
`FileNotFoundError` an empty DataFrame plus an error message is returned. -/
def load_data (file : Option Table) : LoadResult :=
  match file with
  | some df => ⟨deriveAliStatus (deriveResponseCleaned df), none⟩
  | none => ⟨⟨[], []⟩, some phase2ErrMsg⟩

/-- The global rename map of lines 66-72 (verbose survey headers to short
Chinese names); none of these columns is consumed by the claims below. -/
def phase2RenameMap : List (String × String) :=
  [("What stage is your company currently in?", "公司发展阶段"),
   ("What is your company\x27s current annual revenue?", "公司营收"),
   ("How many employees/contractors are currently working at your company?", "团队规模"),
   ("My company is a:", "公司类型")]

/-- Renaming `df.rename(columns=m)` : pure header relabeling, a no-op for absent
source columns. -/
def renameHeader (m : List (String × String)) (t : Table) : Table :=
  ⟨t.header.map (fun h => (((m.find? (fun p => p.1 == h)).map (fun p => p.2)).getD h)), t.rows⟩

/-- Lines 63-72: load, then rename (the rename runs only when the table is
non-empty). -/
def phase2_df (file : Option Table) : Table :=
  let r := load_data file
  if isEmptyDF r.table then r.table else renameHeader phase2RenameMap r.table

/-- The scalar metrics of section 1 of the Phase II dashboard
(lines 85-89). -/
structure Metrics where
  total : Nat
  completeCount : Nat
  completionPct : ℚ
  deriving DecidableEq

/-- Outcome of one Phase II render pass: either the dashboard body
(which reads the derived columns) or the failure placeholder of line 578. -/
inductive RenderOutcome where
  | dashboard : Metrics → RenderOutcome
  | loadFailureInfo : String → RenderOutcome
  deriving DecidableEq

/-- Count of records whose cleaned response type is `complete`, as in
`df[df[...Cleaned] == ...].shape[0]` (line 88). -/
def countComplete (df : Table) : Nat :=
  (((getColumn df "Response Type Cleaned").getD []).filter
    (fun x => x == some "complete")).length

/-- The top-level `if not df.empty:` structure of lines 76-578: the whole
dashboard body runs only on a non-empty table, otherwise only the
informational placeholder is shown.  The completion percentage
(line 89) is therefore only ever computed with a positive denominator. -/
def phase2_page (df : Table) : RenderOutcome :=
  if isEmptyDF df then .loadFailureInfo phase2FailInfo
  else .dashboard ⟨df.rows.length, countComplete df,
    (countComplete df : ℚ) / (df.rows.length : ℚ) * 100⟩

/-- One full Phase II render pass from the external file system. -/
def phase2_render (file : Option Table) : RenderOutcome := phase2_page (phase2_df file)

/-- The rename map of `app.py` lines 9-15.  The first source header embeds a
survey-tool template placeholder verbatim. -/
def appRenameMap : List (String × String) :=
  [("Country where \x7b\x7bfield:4b95525c-36f9-47c2-b2e9-50b3e64a92cb\x7d\x7d is based:", "Country"),
   ("渠道分类", "Channel"),
   ("SOURCE", "Source"),
   ("Response Type", "ResponseType"),
   ("Company Name", "Company")]

/-- Loader `load_data` of `app.py` (lines 7-16).  It has no try/except: a missing
file raises `FileNotFoundError`, modelled as `Except.error`. -/
def app_load_data (file : Option Table) : Except String Table :=
  match file with
  | some df => .ok (renameHeader appRenameMap df)
  | none => .error "FileNotFoundError"

/-- The completion-rate expression of `app.py` lines 31-32:
count of exact `completed` values divided by `len(df)` times 100.
A missing column raises `KeyError`; a zero-row table raises
`ZeroDivisionError`. -/
def app_completion_pct (df : Table) : Except String ℚ :=
  match getColumn df "ResponseType" with
  | none => .error "KeyError"
  | some col =>
      if df.rows.length = 0 then .error "ZeroDivisionError"
      else .ok (((col.filter (fun x => x == some "completed")).length : ℚ)
        / (df.rows.length : ℚ) * 100)

/-! ### Claim C1: response-completion-status derivation -/

/-- The per-cell response rule exactly in the wording of the claim (a
two-way case-insensitive disjunction), to be compared with the embedded
lambda `cleanResponseType`. -/
theorem cleanResponseType_claim_rule (x : Cell) :
    cleanResponseType x =
      (match x with
       | some s =>
           if pyLower s = "complete" ∨ pyLower s = "completed" then "complete"
           else "partial"
       | none => "partial") := by
  cases x with
  | none => rfl
  | some s =>
    simp only [cleanResponseType]
    refine if_congr ?_ rfl rfl
    simp

/-- The per-cell account rule exactly in the wording of the claim (a
seven-way case-insensitive disjunction), to be compared with the embedded
lambda `aliAccountStatus`. -/
theorem aliAccountStatus_claim_rule (x : Cell) :
    aliAccountStatus x =
      (match x with
       | some s =>
           if pyLower s = "no" ∨ pyLower s = "n" ∨ pyLower s = "na" ∨
              pyLower s = "n/a" ∨ pyLower s = "n/a." ∨
              pyLower s = "not sure" ∨ pyLower s = "none" then "No"
           else "Yes"
       | none => "No") := by
  cases x with
  | none => rfl
  | some s =>
    simp only [aliAccountStatus]
    refine if_congr ?_ rfl rfl
    simp [negativeTokens]

/-- Scenario 1 of the spec: ten records, raw `Response Type` column present. -/
def scenario1Table : Table :=
  ⟨["Response Type"],
   [[some "completed"], [some "partial"], [some "completed"], [some ""],
    [some "completed"], [some "partial"], [some "completed"], [some "completed"],
    [some "partial"], [some "completed"]]⟩

/-- C1: for every table with the raw `Response Type` column, each record whose
value lower-cases to `complete` or `completed` is derived as `complete` and
every other record (missing or empty cell included) as `partial`; when the
column is absent every record is derived as `unknown`; on the ten-record
Scenario 1 input the derived counts are complete 6 and partial 4 and the
completion percentage is 60. -/
theorem C1_response_status_derivation :
    (∀ (t : Table) (col : List Cell), WF t →
        getColumn t "Response Type" = some col →
        getColumn (deriveResponseCleaned t) "Response Type Cleaned" =
          some (col.map (fun x => some (match x with
            | some s =>
                if pyLower s = "complete" ∨ pyLower s = "completed" then "complete"
                else "partial"
            | none => "partial")))) ∧
    (∀ t : Table, WF t → getColumn t "Response Type" = none →
        getColumn (deriveResponseCleaned t) "Response Type Cleaned" =
          some (t.rows.map (fun _ => some "unknown"))) ∧
    (((getColumn (deriveResponseCleaned scenario1Table) "Response Type Cleaned").getD
        []).count (some "complete") = 6 ∧
     ((getColumn (deriveResponseCleaned scenario1Table) "Response Type Cleaned").getD
        []).count (some "partial") = 4 ∧
     phase2_render (some scenario1Table) = .dashboard ⟨10, 6, 60⟩) := by
  refine ⟨?_, ?_, by decide, by decide, ?_⟩
  case refine_3 =>
    have h1 : countComplete (phase2_df (some scenario1Table)) = 6 := by decide
    have h2 : (phase2_df (some scenario1Table)).rows.length = 10 := by decide
    have h3 : isEmptyDF (phase2_df (some scenario1Table)) = false := by decide
    simp only [phase2_render, phase2_page, h1, h2, h3, Bool.false_eq_true, if_false]
    norm_num
  · intro t col hWF hcol
    have hlen : (col.map (fun x => some (cleanResponseType x))).length = t.rows.length := by
      simpa using getColumn_length t "Response Type" col hcol
    rw [deriveResponseCleaned, hcol]
    rw [getColumn_setCol t "Response Type Cleaned" _ hWF hlen]
    exact congrArg some (List.map_congr_left
      (fun x _ => congrArg some (cleanResponseType_claim_rule x)))
  · intro t hWF hcol
    have hlen : (t.rows.map (fun _ => (some "unknown" : Cell))).length = t.rows.length := by
      simp
    rw [deriveResponseCleaned, hcol]
    exact getColumn_setCol t "Response Type Cleaned" _ hWF hlen

/-- Witness for C1: the present-column clause applied to the Scenario 1
table. -/
theorem C1_response_status_witness :
    WF scenario1Table ∧
    getColumn scenario1Table "Response Type" =
      some [some "completed", some "partial", some "completed", some "",
            some "completed", some "partial", some "completed", some "completed",
            some "partial", some "completed"] ∧
    getColumn (deriveResponseCleaned scenario1Table) "Response Type Cleaned" =
      some ([some "completed", some "partial", some "completed", some "",
             some "completed", some "partial", some "completed", some "completed",
             some "partial", some "completed"].map (fun x => some (match x with
        | some s =>
            if pyLower s = "complete" ∨ pyLower s = "completed" then "complete"
            else "partial"
        | none => "partial"))) :=
  ⟨by decide, by decide,
    C1_response_status_derivation.1 scenario1Table _ (by decide) (by decide)⟩

/-! ### Claim C2: account-status derivation -/

/-- C2 as stated is false: with the account column present, an empty-string
cell is not NaN (`pd.notna("") == True`) and `""` is not in the negative
token list, so the lambda of lines 51-53 derives `Yes`, not the `No` the
claim lists for the fifth value. -/
theorem C2_scenario_counterexample :
    ¬ ([some "No", some "n/a", some "Not Sure", some "Absolutely!", some "", none].map
        aliAccountStatus = ["No", "No", "No", "Yes", "No", "No"]) := by
  decide

/-- C2 amended: missing cell or a cell lower-casing into
`{no, n, na, n/a, n/a., not sure, none}` derives `No`; every other present
cell — the empty string included — derives `Yes`; an absent column derives
`Unknown` for every record.  The example list therefore derives
`[No, No, No, Yes, Yes, No]`. -/
theorem C2_account_status_amended :
    (∀ (t : Table) (col : List Cell), WF t →
        getColumn t aliColName = some col →
        getColumn (deriveAliStatus t) "Alibaba Account Status" =
          some (col.map (fun x => some (match x with
            | some s =>
                if pyLower s = "no" ∨ pyLower s = "n" ∨ pyLower s = "na" ∨
                   pyLower s = "n/a" ∨ pyLower s = "n/a." ∨
                   pyLower s = "not sure" ∨ pyLower s = "none" then "No"
                else "Yes"
            | none => "No")))) ∧
    (∀ t : Table, WF t → getColumn t aliColName = none →
        getColumn (deriveAliStatus t) "Alibaba Account Status" =
          some (t.rows.map (fun _ => some "Unknown"))) ∧
    ([some "No", some "n/a", some "Not Sure", some "Absolutely!", some "", none].map
        aliAccountStatus = ["No", "No", "No", "Yes", "Yes", "No"]) := by
  refine ⟨?_, ?_, by decide⟩
  · intro t col hWF hcol
    have hlen : (col.map (fun x => some (aliAccountStatus x))).length = t.rows.length := by
      simpa using getColumn_length t aliColName col hcol
    rw [deriveAliStatus, hcol]
    rw [getColumn_setCol t "Alibaba Account Status" _ hWF hlen]
    exact congrArg some (List.map_congr_left
      (fun x _ => congrArg some (aliAccountStatus_claim_rule x)))
  · intro t hWF hcol
    rw [deriveAliStatus, hcol]
    exact getColumn_setCol t "Alibaba Account Status" _ hWF (by simp)

/-- Witness for C2: the present-column clause applied to a one-column table
holding the six example cells. -/
theorem C2_account_status_witness :
    WF (⟨[aliColName],
         [[some "No"], [some "n/a"], [some "Not Sure"], [some "Absolutely!"],
          [some ""], [none]]⟩ : Table) ∧
    getColumn (deriveAliStatus ⟨[aliColName],
        [[some "No"], [some "n/a"], [some "Not Sure"], [some "Absolutely!"],
         [some ""], [none]]⟩) "Alibaba Account Status" =
      some [some "No", some "No", some "No", some "Yes", some "Yes", some "No"] := by
  refine ⟨by decide, ?_⟩
  have h := C2_account_status_amended.1
    ⟨[aliColName],
     [[some "No"], [some "n/a"], [some "Not Sure"], [some "Absolutely!"],
      [some ""], [none]]⟩
    [some "No", some "n/a", some "Not Sure", some "Absolutely!", some "", none]
    (by decide) (by decide)
  rw [h]
  decide

/-! ### Claim C3: loader missing-file contract -/

/-- C3 as stated is false for the repository as a whole: the `app.py` loader
has no try/except, so on a missing file the exception propagates to the
caller instead of an empty table being returned. -/
theorem C3_app_loader_counterexample :
    app_load_data none = Except.error "FileNotFoundError" := rfl

/-- C3 amended: the Phase II loader returns an explicit empty table plus a
user-facing error description on a missing file, and the downstream render
treats that empty table as valid input (it renders the informational
placeholder); the `app.py` loader instead propagates `FileNotFoundError`. -/
theorem C3_loader_amended :
    load_data none = ⟨⟨[], []⟩, some phase2ErrMsg⟩ ∧
    phase2_render none = .loadFailureInfo phase2FailInfo ∧
    app_load_data none = .error "FileNotFoundError" := by
  refine ⟨rfl, rfl, rfl⟩

/-! ### Claim C5: percentage of an empty set -/

/-- C5 as stated is false for `app.py`: on a zero-row table the expression
the unguarded completion-rate division raises
`ZeroDivisionError` rather than returning a no-data sentinel. -/
theorem C5_zero_division_counterexample :
    app_completion_pct ⟨["ResponseType"], []⟩ = .error "ZeroDivisionError" := rfl

/-- C5 amended: in the Phase II dashboard the completion percentage sits
under the table-emptiness guard, so an empty table yields the informational
placeholder (no division, no exception, no 0% result) and the percentage is
only computed with a positive denominator; in `app.py` a zero-row table
raises `ZeroDivisionError`. -/
theorem C5_percentage_amended :
    (∀ df : Table, isEmptyDF df = true →
        phase2_page df = .loadFailureInfo phase2FailInfo) ∧
    (∀ df : Table, isEmptyDF df = false →
        0 < df.rows.length ∧
        phase2_page df = .dashboard ⟨df.rows.length, countComplete df,
          (countComplete df : ℚ) / (df.rows.length : ℚ) * 100⟩) ∧
    app_completion_pct ⟨["ResponseType"], []⟩ = .error "ZeroDivisionError" := by
  refine ⟨?_, ?_, rfl⟩
  · intro df h
    simp [phase2_page, h]
  · intro df h
    constructor
    · have : ¬ df.rows.isEmpty := by
        simp [isEmptyDF] at h
        exact fun h1 => absurd h1 (by simpa using h.1)
      cases hr : df.rows with
      | nil => rw [hr] at this; simp at this
      | cons a l => simp [hr]
    · simp [phase2_page, h]

/-- Witness for C5: both amended clauses applied to concrete tables. -/
theorem C5_percentage_witness :
    (isEmptyDF ⟨["A"], []⟩ = true ∧
      phase2_page ⟨["A"], []⟩ = .loadFailureInfo phase2FailInfo) ∧
    (isEmptyDF scenario1Table = false ∧ 0 < scenario1Table.rows.length) :=
  ⟨⟨by decide, C5_percentage_amended.1 ⟨["A"], []⟩ (by decide)⟩,
   ⟨by decide, (C5_percentage_amended.2.1 scenario1Table (by decide)).1⟩⟩

/-! ### Claim C10: file-not-found branch adds no derived columns -/

/-- C10: the empty table returned on the file-not-found branch has no derived
columns (normalization runs only on the success path), and the emptiness
guard routes the render to the informational placeholder, so no downstream
stage reads a derived column from it. -/
theorem C10_missing_file_no_derived_columns :
    "Response Type Cleaned" ∉ (load_data none).table.header ∧
    "Alibaba Account Status" ∉ (load_data none).table.header ∧
    (load_data none).table = ⟨[], []⟩ ∧
    isEmptyDF (load_data none).table = true ∧
    phase2_render none = .loadFailureInfo phase2FailInfo := by
  refine ⟨by decide, by decide, rfl, rfl, rfl⟩

/-! ### `value_counts` and the aggregate (C6)

`df[col].dropna().value_counts()` (lines 104-106 for channels, 164-166 for
countries) builds one count per distinct value, keyed in order of first
appearance, and sorts the counts descending with a stable sort.  We embed
this extensionally: first-appearance keys, counts, and a stable descending
insertion sort. -/

/-- Distinct values of the second argument in order of first appearance;
`seen` accumulates values already emitted. -/
def uniqAux : List String → List String → List String
  | _, [] => []
  | seen, x :: xs => if x ∈ seen then uniqAux seen xs else x :: uniqAux (x :: seen) xs

/-- Distinct values in order of first appearance (the key order
`value_counts` starts from). -/
def uniqKeys (l : List String) : List String := uniqAux [] l

theorem mem_uniqAux {y : String} :
    ∀ (l seen : List String), y ∈ uniqAux seen l → y ∉ seen ∧ y ∈ l := by
  intro l
  induction l with
  | nil => intro seen h; simp [uniqAux] at h
  | cons x xs ih =>
    intro seen h
    by_cases hx : x ∈ seen
    · simp only [uniqAux, if_pos hx] at h
      obtain ⟨h1, h2⟩ := ih seen h
      exact ⟨h1, List.mem_cons.mpr (Or.inr h2)⟩
    · simp only [uniqAux, if_neg hx] at h
      rcases List.mem_cons.mp h with rfl | h'
      · exact ⟨hx, List.mem_cons_self y xs⟩
      · obtain ⟨h1, h2⟩ := ih (x :: seen) h'
        exact ⟨fun hy => h1 (List.mem_cons.mpr (Or.inr hy)),
          List.mem_cons.mpr (Or.inr h2)⟩

/-- Appearing earlier in the first-appearance key list means a strictly
smaller index of first occurrence in the source list. -/
theorem sublist_uniqAux_indexOf {a b : String} :
    ∀ (l seen : List String), List.Sublist [a, b] (uniqAux seen l) →
      List.indexOf a l < List.indexOf b l := by
  intro l
  induction l with
  | nil =>
    intro seen h
    simp only [uniqAux] at h
    have := List.sublist_nil.mp h
    simp at this
  | cons x xs ih =>
    intro seen h
    by_cases hx : x ∈ seen
    · simp only [uniqAux, if_pos hx] at h
      have ha := mem_uniqAux xs seen (h.subset (show a ∈ [a, b] by simp))
      have hb := mem_uniqAux xs seen (h.subset (show b ∈ [a, b] by simp))
      have hax : x ≠ a := fun e => ha.1 (e ▸ hx)
      have hbx : x ≠ b := fun e => hb.1 (e ▸ hx)
      rw [List.indexOf_cons_ne xs hax, List.indexOf_cons_ne xs hbx]
      exact Nat.succ_lt_succ (ih seen h)
    · simp only [uniqAux, if_neg hx] at h
      cases h with
      | cons _ h' =>
        have ha := mem_uniqAux xs (x :: seen) (h'.subset (show a ∈ [a, b] by simp))
        have hb := mem_uniqAux xs (x :: seen) (h'.subset (show b ∈ [a, b] by simp))
        have hax : x ≠ a := fun e => ha.1 (List.mem_cons.mpr (Or.inl e.symm))
        have hbx : x ≠ b := fun e => hb.1 (List.mem_cons.mpr (Or.inl e.symm))
        rw [List.indexOf_cons_ne xs hax, List.indexOf_cons_ne xs hbx]
        exact Nat.succ_lt_succ (ih (x :: seen) h')
      | cons₂ _ h' =>
        have hb := mem_uniqAux xs (a :: seen) (List.singleton_sublist.mp h')
        have hba : a ≠ b := fun e => hb.1 (List.mem_cons.mpr (Or.inl e.symm))
        rw [List.indexOf_cons_self, List.indexOf_cons_ne xs hba]
        exact Nat.succ_pos _

/-- Stable descending insertion: the new pair goes in front of the first
element whose count is not larger, i.e. after every earlier-inserted element
of strictly larger or equal count. -/
def insertDesc (p : String × Nat) : List (String × Nat) → List (String × Nat)
  | [] => [p]
  | q :: qs => if q.2 ≤ p.2 then p :: q :: qs else q :: insertDesc p qs

/-- Stable sort by count, descending; extensionally the
`sort_values(ascending=False, kind=stable)` step of `value_counts`. -/
def sortCountsDesc : List (String × Nat) → List (String × Nat)
  | [] => []
  | p :: ps => insertDesc p (sortCountsDesc ps)

/-- Embeds `Series.value_counts()`: one `(value, count)` pair per distinct value,
sorted by count descending, ties kept in first-appearance order. -/
def value_counts (l : List String) : List (String × Nat) :=
  sortCountsDesc ((uniqKeys l).map (fun k => (k, List.count k l)))

theorem mem_insertDesc {x p : String × Nat} :
    ∀ l, x ∈ insertDesc p l ↔ x = p ∨ x ∈ l := by
  intro l
  induction l with
  | nil => simp [insertDesc]
  | cons q qs ih =>
    by_cases hq : q.2 ≤ p.2
    · simp [insertDesc, hq]
    · simp [insertDesc, hq, ih]
      tauto

theorem pairwise_insertDesc (p : String × Nat) :
    ∀ l, l.Pairwise (fun a b => b.2 ≤ a.2) →
      (insertDesc p l).Pairwise (fun a b => b.2 ≤ a.2) := by
  intro l
  induction l with
  | nil => intro _; simp [insertDesc]
  | cons q qs ih =>
    intro hp
    rw [List.pairwise_cons] at hp
    by_cases hq : q.2 ≤ p.2
    · simp only [insertDesc, if_pos hq]
      refine List.pairwise_cons.mpr ⟨?_, List.pairwise_cons.mpr ⟨hp.1, hp.2⟩⟩
      intro x hx
      rcases List.mem_cons.mp hx with rfl | hx'
      · exact hq
      · exact le_trans (hp.1 x hx') hq
    · simp only [insertDesc, if_neg hq]
      refine List.pairwise_cons.mpr ⟨?_, ih hp.2⟩
      intro x hx
      rcases (mem_insertDesc qs).mp hx with rfl | hx'
      · exact Nat.le_of_lt (Nat.lt_of_not_le hq)
      · exact hp.1 x hx'

theorem pairwise_sortCountsDesc :
    ∀ m, (sortCountsDesc m).Pairwise (fun (a b : String × Nat) => b.2 ≤ a.2) := by
  intro m
  induction m with
  | nil => simp [sortCountsDesc]
  | cons p ps ih => exact pairwise_insertDesc p (sortCountsDesc ps) ih

/-- Stability of the insertion, characterised through filtering at a fixed
count: inserting `p` leaves the relative order of all other pairs with
the count of `p` untouched and puts `p` in front of them. -/
theorem filter_insertDesc (n : Nat) (p : String × Nat) :
    ∀ l, (insertDesc p l).filter (fun q => q.2 == n) =
      if p.2 = n then p :: l.filter (fun q => q.2 == n)
      else l.filter (fun q => q.2 == n) := by
  intro l
  induction l with
  | nil =>
    show [p].filter (fun q => q.2 == n) = _
    rw [List.filter_cons]
    simp only [beq_iff_eq, List.filter_nil]
  | cons q qs ih =>
    by_cases hq : q.2 ≤ p.2
    · simp only [insertDesc, if_pos hq]
      rw [List.filter_cons]
      simp only [beq_iff_eq]
    · simp only [insertDesc, if_neg hq]
      have hlt : p.2 < q.2 := Nat.lt_of_not_le hq
      rw [List.filter_cons, ih]
      by_cases hqn : q.2 = n
      · have hpn : ¬ p.2 = n := by omega
        simp only [if_neg hpn, List.filter_cons, hqn, beq_self_eq_true, if_true]
      · have hqn2 : ¬ ((q.2 == n) = true) := by simp [hqn]
        simp only [if_neg hqn2, List.filter_cons]

theorem filter_sortCountsDesc (n : Nat) :
    ∀ m, (sortCountsDesc m).filter (fun q => q.2 == n) =
      m.filter (fun q => q.2 == n) := by
  intro m
  induction m with
  | nil => rfl
  | cons p ps ih =>
    show (insertDesc p (sortCountsDesc ps)).filter (fun q => q.2 == n) = _
    rw [filter_insertDesc]
    by_cases hpn : p.2 = n <;> simp [List.filter_cons, hpn, ih]

theorem pair_sublist_map {f : String → String × Nat} {p q : String × Nat} :
    ∀ l : List String, List.Sublist [p, q] (l.map f) →
      ∃ x y, List.Sublist [x, y] l ∧ p = f x ∧ q = f y := by
  intro l
  induction l with
  | nil => intro h; have := List.sublist_nil.mp h; simp at this
  | cons z zs ih =>
    intro h
    rw [List.map_cons] at h
    cases h with
    | cons _ h' =>
      obtain ⟨x, y, hs, hp, hq⟩ := ih h'
      exact ⟨x, y, List.Sublist.cons z hs, hp, hq⟩
    | cons₂ _ h' =>
      obtain ⟨y, hy, hqy⟩ := List.mem_map.mp (List.singleton_sublist.mp h')
      exact ⟨z, y, List.Sublist.cons₂ z (List.singleton_sublist.mpr hy), rfl, hqy.symm⟩

/-- Embeds `df[c].dropna()`: the present values of a column, in row order (empty
when the column is absent). -/
def nonMissing (t : Table) (c : String) : List String :=
  ((getColumn t c).getD []).filterMap (fun x => x)

/-- The category-to-count aggregate `df[c].dropna().value_counts()` shared
by `channel_counts` (lines 104-106) and `country_counts`
(lines 164-166). -/
def aggregate (t : Table) (c : String) : List (String × Nat) :=
  value_counts (nonMissing t c)

/-- C6: for every table and column present in it, the aggregate is sorted
descending by count, and two entries with equal counts appear in the order
of their first appearance among the non-missing column values. -/
theorem C6_aggregate_sorted_stable (t : Table) (c : String) (_hc : c ∈ t.header) :
    (aggregate t c).Pairwise (fun a b => b.2 ≤ a.2) ∧
    ∀ a b n, List.Sublist [(a, n), (b, n)] (aggregate t c) →
      List.indexOf a (nonMissing t c) < List.indexOf b (nonMissing t c) := by
  constructor
  · exact pairwise_sortCountsDesc _
  · intro a b n hsub
    have h1 : List.Sublist [(a, n), (b, n)]
        ((aggregate t c).filter (fun q => q.2 == n)) := by
      have h2 := List.Sublist.filter (fun q => q.2 == n) hsub
      simpa using h2
    rw [aggregate, value_counts, filter_sortCountsDesc] at h1
    have h2 : List.Sublist [(a, n), (b, n)]
        ((uniqKeys (nonMissing t c)).map (fun k => (k, List.count k (nonMissing t c)))) :=
      h1.trans (List.filter_sublist _)
    obtain ⟨x, y, hxy, hpx, hqy⟩ := pair_sublist_map _ h2
    have hax : a = x := congrArg Prod.fst hpx
    have hby : b = y := congrArg Prod.fst hqy
    rw [hax, hby]
    exact sublist_uniqAux_indexOf (nonMissing t c) [] hxy

/-- A two-row table with a count tie between the two channel values. -/
def tieTable : Table := ⟨["渠道"], [[some "A"], [some "B"]]⟩

/-- Witness for C6: on a concrete tied aggregate, the theorem yields the
first-appearance order of the tied categories. -/
theorem C6_aggregate_witness :
    "渠道" ∈ tieTable.header ∧
    List.Sublist [("A", 1), ("B", 1)] (aggregate tieTable "渠道") ∧
    List.indexOf "A" (nonMissing tieTable "渠道") <
      List.indexOf "B" (nonMissing tieTable "渠道") := by
  have hagg : aggregate tieTable "渠道" = [("A", 1), ("B", 1)] := by decide
  have hsub : List.Sublist [("A", 1), ("B", 1)] (aggregate tieTable "渠道") := by
    rw [hagg]
  refine ⟨by decide, hsub,
    (C6_aggregate_sorted_stable tieTable "渠道" (by decide)).2 "A" "B" 1 hsub⟩

/-! ### Key-country summary (C4, C9)

Lines 181-195 of `Phase II Dashboard.py`: restrict the table to five fixed
countries, group by country, and per group record the row count and the
most frequent channel (the mode via `idxmax` over `value_counts`, with the sentinel
for an empty series), then the replacement of count 0 by the sentinel. -/

/-- The fixed allow-list of line 182. -/
def key_countries : List String :=
  ["United States", "United Kingdom", "Germany", "France", "Italy"]

/-- Code-point lexicographic order on character lists (Python string
comparison), used because `groupby` emits its group keys sorted. -/
def lexLe : List Char → List Char → Bool
  | [], _ => true
  | _ :: _, [] => false
  | a :: as, b :: bs => if a < b then true else if b < a then false else lexLe as bs

def insertStr (s : String) : List String → List String
  | [] => [s]
  | x :: xs => if lexLe s.data x.data then s :: x :: xs else x :: insertStr s xs

/-- Sorted group keys, as `groupby(sort=True)` produces them. -/
def sortStrings : List String → List String
  | [] => []
  | s :: ss => insertStr s (sortStrings ss)

theorem mem_insertStr {a s : String} :
    ∀ l, a ∈ insertStr s l → a = s ∨ a ∈ l := by
  intro l
  induction l with
  | nil => intro h; simpa [insertStr] using h
  | cons x xs ih =>
    intro h
    by_cases hc : lexLe s.data x.data
    · simp only [insertStr, if_pos hc] at h
      simpa using h
    · simp only [insertStr, if_neg hc] at h
      rcases List.mem_cons.mp h with rfl | h'
      · exact Or.inr (List.mem_cons_self a xs)
      · rcases ih h' with h2 | h2
        · exact Or.inl h2
        · exact Or.inr (List.mem_cons.mpr (Or.inr h2))

theorem mem_sortStrings {a : String} :
    ∀ l, a ∈ sortStrings l → a ∈ l := by
  intro l
  induction l with
  | nil => intro h; simp [sortStrings] at h
  | cons s ss ih =>
    intro h
    rcases mem_insertStr (sortStrings ss) h with rfl | h'
    · exact List.mem_cons_self a ss
    · exact List.mem_cons.mpr (Or.inr (ih h'))

/-- The country cell of a row. -/
def countryCell (hdr : List String) (r : List Cell) : Cell :=
  (lookupCell hdr "country" r).getD none

/-- The rows of the key-country restriction that belong to group `c`. -/
def grpOf (hdr : List String) (kdf : List (List Cell)) (c : String) : List (List Cell) :=
  kdf.filter (fun r => countryCell hdr r == some c)

/-- The mode of the channel series of a group, line 188: `idxmax` over
`value_counts` when the series is non-empty, the sentinel otherwise.
`value_counts` drops missing values, so on a group whose channel values are
all missing its result is empty and `idxmax` raises `ValueError`; the
`x.empty` guard cannot fire for an emitted (hence non-empty) group. -/
def modeChannel (cells : List Cell) : Except String String :=
  if cells.isEmpty then .ok "无"
  else
    match value_counts (cells.filterMap (fun x => x)) with
    | [] => .error "ValueError: attempt to get argmax of an empty sequence"
    | p :: _ => .ok p.1

/-- One summary row per group key, in key order; the first failing group
aborts the aggregation, as `groupby.agg` does. -/
def summarize (hdr : List String) (kdf : List (List Cell)) :
    List String → Except String (List (String × Nat × String))
  | [] => .ok []
  | c :: cs =>
    match modeChannel ((grpOf hdr kdf c).map
        (fun r => (lookupCell hdr "渠道" r).getD none)), summarize hdr kdf cs with
    | .error e, _ => .error e
    | .ok _, .error e => .error e
    | .ok m, .ok rest => .ok ((c, (grpOf hdr kdf c).length, m) :: rest)

/-- Embeds `key_country_summary` (lines 184-189): filter to the allow-list, group
by country, count rows and take the channel mode per group. -/
def key_country_summary (t : Table) :
    Except String (List (String × Nat × String)) :=
  if "country" ∈ t.header ∧ "渠道" ∈ t.header then
    let kdf := t.rows.filter (fun r =>
      match countryCell t.header r with
      | some v => key_countries.contains v
      | none => false)
    summarize t.header kdf
      (sortStrings (uniqKeys (kdf.filterMap (fun r => countryCell t.header r))))
  else .error "KeyError"

/-- Line 195: the replacement of count 0 by the sentinel in the count
column.  A zero count would become the textual sentinel, making the column mixed-typed. -/
def replaceZeroCount (s : List (String × Nat × String)) :
    List (String × (Nat ⊕ String) × String) :=
  s.map (fun row =>
    (row.1, if row.2.1 = 0 then Sum.inr "无" else Sum.inl row.2.1, row.2.2))

/-- C4: the claim promises the sentinel `无` for a key-country group whose
channel data is empty, but on such a group the code raises: with a single
United States row whose channel cell is missing, the `value_counts()` of
the group is empty and `idxmax()` raises `ValueError` — the
`if not x.empty` guard is false-protecting only a literally empty series,
which an emitted group never is. -/
theorem C4_summary_crash_eval :
    key_country_summary ⟨["country", "渠道"], [[some "United States", none]]⟩ =
      Except.error "ValueError: attempt to get argmax of an empty sequence" := by
  rfl

theorem summarize_ok (hdr : List String) (kdf : List (List Cell)) :
    ∀ (cs : List String) (s : List (String × Nat × String)),
      summarize hdr kdf cs = .ok s →
      ∀ row ∈ s, row.2.1 = (grpOf hdr kdf row.1).length ∧ row.1 ∈ cs := by
  intro cs
  induction cs with
  | nil =>
    intro s h row hrow
    simp only [summarize] at h
    cases h
    simp at hrow
  | cons c cs ih =>
    intro s h row hrow
    simp only [summarize] at h
    cases hm : modeChannel ((grpOf hdr kdf c).map
        (fun r => (lookupCell hdr "渠道" r).getD none)) with
    | error e => rw [hm] at h; cases h
    | ok m =>
      rw [hm] at h
      cases hrest : summarize hdr kdf cs with
      | error e => rw [hrest] at h; cases h
      | ok rest =>
        rw [hrest] at h
        cases h
        rcases List.mem_cons.mp hrow with rfl | hrow'
        · exact ⟨rfl, List.mem_cons_self c cs⟩
        · obtain ⟨h1, h2⟩ := ih rest hrest row hrow'
          exact ⟨h1, List.mem_cons.mpr (Or.inr h2)⟩

/-- C9: whenever the key-country summary is produced, every row counts a
non-empty group, so the count is at least 1; the subsequent
the zero-to-sentinel replacement is therefore the identity and the count column stays
numeric. -/
theorem C9_summary_counts_positive (t : Table)
    (s : List (String × Nat × String))
    (h : key_country_summary t = .ok s) :
    (∀ row ∈ s, 1 ≤ row.2.1) ∧
    replaceZeroCount s = s.map (fun row => (row.1, Sum.inl row.2.1, row.2.2)) := by
  have hcols : "country" ∈ t.header ∧ "渠道" ∈ t.header := by
    by_contra hc
    rw [key_country_summary, if_neg hc] at h
    cases h
  rw [key_country_summary, if_pos hcols] at h
  have hpos : ∀ row ∈ s, 1 ≤ row.2.1 := by
    intro row hrow
    obtain ⟨hcount, hmem⟩ := summarize_ok t.header _ _ s h row hrow
    have hval : row.1 ∈ (t.rows.filter (fun r =>
        match countryCell t.header r with
        | some v => key_countries.contains v
        | none => false)).filterMap (fun r => countryCell t.header r) :=
      (mem_uniqAux _ []
        (mem_sortStrings _ hmem)).2
    obtain ⟨r, hr, hrc⟩ := List.mem_filterMap.mp hval
    have hgrp : r ∈ grpOf t.header (t.rows.filter (fun r =>
        match countryCell t.header r with
        | some v => key_countries.contains v
        | none => false)) row.1 := by
      refine List.mem_filter.mpr ⟨hr, ?_⟩
      simp [hrc]
    rw [hcount]
    exact Nat.succ_le_of_lt (List.length_pos.mpr (List.ne_nil_of_mem hgrp))
  refine ⟨hpos, ?_⟩
  unfold replaceZeroCount
  refine List.map_congr_left ?_
  intro row hrow
  have h1 : ¬ row.2.1 = 0 := by
    have := hpos row hrow
    omega
  rw [if_neg h1]

/-- Witness for C9: a one-row summary on a concrete table. -/
theorem C9_summary_counts_witness :
    key_country_summary ⟨["country", "渠道"], [[some "United States", some "LinkedIn"]]⟩ =
      .ok [("United States", 1, "LinkedIn")] ∧
    (∀ row ∈ [(("United States" : String), (1 : Nat), ("LinkedIn" : String))], 1 ≤ row.2.1) ∧
    replaceZeroCount [("United States", 1, "LinkedIn")] =
      [("United States", 1, "LinkedIn")].map
        (fun row => (row.1, Sum.inl row.2.1, row.2.2)) := by
  have h : key_country_summary
      ⟨["country", "渠道"], [[some "United States", some "LinkedIn"]]⟩ =
      .ok [("United States", 1, "LinkedIn")] := by rfl
  have h2 := C9_summary_counts_positive
    ⟨["country", "渠道"], [[some "United States", some "LinkedIn"]]⟩
    [("United States", 1, "LinkedIn")] h
  exact ⟨h, h2.1, h2.2⟩

/-! ### Text analyzer: word frequencies (C7)

Lines 490-498 of `Phase II Dashboard.py`:
a join of the texts by single spaces;
the regex `\b\w+\b` findall over the lower-cased join;
`filtered_words = [w for w in words if w not in stop_words and len(w) > 2]`;
`word_freq = Counter(filtered_words)`.
The regex extracts maximal runs of word characters; the `Counter` keys in
order of first appearance.  The stopword set is a parameter (the dashboard
passes the NLTK English list). -/

/-- A word character of the regex `\w` (the dashboard text is ASCII). -/
def isWordChar (c : Char) : Bool := c.isAlphanum || c = '_'

/-- Accumulate the current (reversed) token while scanning. -/
def tokenizeAux : List Char → List Char → List (List Char)
  | cur, [] => if cur.isEmpty then [] else [cur.reverse]
  | cur, c :: cs =>
    if isWordChar c then tokenizeAux (c :: cur) cs
    else if cur.isEmpty then tokenizeAux [] cs
    else cur.reverse :: tokenizeAux [] cs

/-- Embeds the regex search for `\b\w+\b` over `s`: the maximal
word-character runs of `s`. -/
def tokenize (s : List Char) : List (List Char) := tokenizeAux [] s

/-- The token stream: join with spaces, lower-case, tokenize. -/
def wfTokens (texts : List String) : List String :=
  (tokenize (pyLower (String.intercalate " " texts)).data).map String.mk

/-- Tokens surviving the stopword and minimum-length filters. -/
def wfKept (texts : List String) (stops : List String) : List String :=
  (wfTokens texts).filter (fun w => !stops.contains w && decide (2 < w.length))

/-- Embeds `Counter(filtered_words)`: token to occurrence count, keyed in first
appearance order. -/
def word_freq (texts : List String) (stops : List String) : List (String × Nat) :=
  (uniqKeys (wfKept texts stops)).map (fun k => (k, List.count k (wfKept texts stops)))

/-- C7: on the Scenario 4 inputs the frequency table is exactly
`great 3, product 1, team 2`; and in general every entry of the table is a
non-stopword token of length at least 3 with a positive count. -/
theorem C7_word_freq_scenario_and_filtering :
    word_freq ["Great product and great team", "the team is great"]
        ["the", "is", "and"] =
      [("great", 3), ("product", 1), ("team", 2)] ∧
    ∀ texts stops w n, (w, n) ∈ word_freq texts stops →
      stops.contains w = false ∧ 2 < w.length ∧ 0 < n := by
  refine ⟨by decide, ?_⟩
  intro texts stops w n hmem
  obtain ⟨k, hk, hkeq⟩ := List.mem_map.mp hmem
  have hw : k = w := congrArg Prod.fst hkeq
  have hn : List.count k (wfKept texts stops) = n := congrArg Prod.snd hkeq
  have hkept : k ∈ wfKept texts stops := (mem_uniqAux _ [] hk).2
  have hfil := (List.mem_filter.mp hkept).2
  simp only [Bool.and_eq_true, Bool.not_eq_true', decide_eq_true_eq] at hfil
  refine ⟨hw ▸ hfil.1, hw ▸ hfil.2, ?_⟩
  rw [← hn]
  exact List.count_pos_iff.mpr hkept

/-- Witness for C7: the filtering clause applied to the `great` entry of the
Scenario 4 table. -/
theorem C7_word_freq_witness :
    ("great", 3) ∈ word_freq ["Great product and great team", "the team is great"]
        ["the", "is", "and"] ∧
    ["the", "is", "and"].contains "great" = false ∧
    2 < "great".length ∧ 0 < 3 :=
  ⟨by decide, C7_word_freq_scenario_and_filtering.2
    ["Great product and great team", "the team is great"]
    ["the", "is", "and"] "great" 3 (by decide)⟩

/-! ### CSV export and re-parse (C8)

`convert_df_to_csv` (lines 564-566) is `df.to_csv(index=False)` encoded as
UTF-8: one header line then one line per row, fields joined by commas,
minimal quoting (a field containing a comma, double quote, newline or
carriage return is wrapped in double quotes with inner quotes doubled),
missing values written as empty fields.  The re-parser models
`pandas.read_csv` at string level: it undoes the quoting and maps empty
fields and the default NA tokens back to missing values. -/

/-- Characters that force quoting under `csv.QUOTE_MINIMAL`. -/
def isSpecialChar (c : Char) : Bool :=
  c == ',' || c == '\"' || c == '\n' || c == '\r'

def needsQuote (s : List Char) : Bool := s.any isSpecialChar

/-- Double every double quote (the `doublequote=True` escape). -/
def escQuote : List Char → List Char
  | [] => []
  | c :: cs => if c = '\"' then '\"' :: '\"' :: escQuote cs else c :: escQuote cs

/-- Serialize one field with minimal quoting. -/
def writeField (s : List Char) : List Char :=
  if needsQuote s then '\"' :: (escQuote s ++ ['\"']) else s

/-- Serialize one record: fields joined by commas. -/
def writeFields : List (List Char) → List Char
  | [] => []
  | [f] => writeField f
  | f :: g :: gs => writeField f ++ ',' :: writeFields (g :: gs)

/-- Serialize records, each terminated by a newline (`to_csv` ends every
line, the last included, with the line terminator). -/
def writeLines : List (List (List Char)) → List Char
  | [] => []
  | r :: rs => writeFields r ++ '\n' :: writeLines rs

/-- A missing value exports as an empty field; a present value as its
text. -/
def cellContent : Cell → List Char
  | none => []
  | some s => s.data

/-- Export `convert_df_to_csv` (lines 564-566): header line then data lines. -/
def convert_df_to_csv (t : Table) : List Char :=
  writeLines ((t.header.map String.data) :: t.rows.map (fun r => r.map cellContent))

/-- Parse the inside of a quoted field (the opening quote already
consumed); returns the unescaped content and the characters after the
closing quote.  A doubled quote is an escaped quote; a lone quote closes
the field. -/
def parseQuoted : List Char → Option (List Char × List Char)
  | [] => none
  | [c] => if c = '\"' then some ([], []) else none
  | c :: c2 :: cs =>
    if c = '\"' then
      if c2 = '\"' then (parseQuoted cs).map (fun p => ('\"' :: p.1, p.2))
      else some ([], c2 :: cs)
    else (parseQuoted (c2 :: cs)).map (fun p => (c :: p.1, p.2))

/-- Parse an unquoted field: everything up to a comma or newline. -/
def parseFieldUnq : List Char → List Char × List Char
  | [] => ([], [])
  | c :: cs =>
    if c = ',' ∨ c = '\n' then ([], c :: cs)
    else
      let p := parseFieldUnq cs
      (c :: p.1, p.2)

/-- Parse one field, quoted or not. -/
def parseField : List Char → Option (List Char × List Char)
  | [] => some ([], [])
  | c :: cs => if c = '\"' then parseQuoted cs else some (parseFieldUnq (c :: cs))

/-- Parse one record (fuelled; every step past a comma consumes it). -/
def parseRecAux : Nat → List Char → Option (List (List Char) × List Char)
  | 0, _ => none
  | fuel + 1, l =>
    match parseField l with
    | none => none
    | some (f, rest) =>
      match rest with
      | [] => some ([f], [])
      | c :: cs =>
        if c = ',' then (parseRecAux fuel cs).map (fun p => (f :: p.1, p.2))
        else if c = '\n' then some ([f], cs)
        else none

/-- Parse all records (fuelled; every record consumes its newline). -/
def parseRowsAux : Nat → List Char → Option (List (List (List Char)))
  | _, [] => some []
  | 0, _ :: _ => none
  | fuel + 1, c :: cs =>
    match parseRecAux ((c :: cs).length + 1) (c :: cs) with
    | none => none
    | some (r, rest) => (parseRowsAux fuel rest).map (fun rs => r :: rs)

/-- The default NA tokens of `pandas.read_csv` (the empty field included):
any cell whose text equals one of these re-parses as missing. -/
def naTokens : List String :=
  ["", "#N/A", "#N/A N/A", "#NA", "-1.#IND", "-1.#QNAN", "-NaN", "-nan",
   "1.#IND", "1.#QNAN", "<NA>", "N/A", "NA", "NULL", "NaN", "None", "n/a",
   "nan", "null"]

/-- Map a raw field back to a cell, applying the NA conversion. -/
def toCell (f : List Char) : Cell :=
  if String.mk f ∈ naTokens then none else some (String.mk f)

/-- Reader `pandas.read_csv` at string level: first record is the header (no NA
conversion there), the rest are data rows. -/
def read_csv (s : List Char) : Option Table :=
  match parseRowsAux (s.length + 1) s with
  | some (h :: rs) => some ⟨h.map String.mk, rs.map (fun r => r.map toCell)⟩
  | _ => none

/-- A filtered table whose single cell is the text `NA`. -/
def naCellTable : Table := ⟨["A"], [[some "NA"]]⟩

/-- C8 as stated is false: a present cell holding an NA token (here the
text `NA`) is exported verbatim and re-parsed as a missing value, so the
round trip does not reproduce the table. -/
theorem C8_roundtrip_counterexample :
    read_csv (convert_df_to_csv naCellTable) ≠ some naCellTable := by
  decide

/-- A position where a field may legally end: end of input, a comma or a
newline. -/
def sepStart : List Char → Bool
  | [] => true
  | c :: _ => c == ',' || c == '\n'

theorem sepStart_not_quote {rest : List Char} (hr : sepStart rest = true) :
    ∀ c cs, rest = c :: cs → c ≠ '\"' := by
  intro c cs hrest
  subst hrest
  simp only [sepStart, Bool.or_eq_true, beq_iff_eq] at hr
  rcases hr with rfl | rfl <;> decide

theorem notSpecial_spec {a : Char} (h : (!isSpecialChar a) = true) :
    a ≠ ',' ∧ a ≠ '\"' ∧ a ≠ '\n' ∧ a ≠ '\r' := by
  have h2 : isSpecialChar a = false := by simpa using h
  simp only [isSpecialChar, Bool.or_eq_false_iff, beq_eq_false_iff_ne] at h2
  exact ⟨h2.1.1.1, h2.1.1.2, h2.1.2, h2.2⟩

theorem parseFieldUnq_sep (c : Char) (cs : List Char) (hc : c = ',' ∨ c = '\n') :
    parseFieldUnq (c :: cs) = ([], c :: cs) := by
  simp only [parseFieldUnq, if_pos hc]

theorem parseFieldUnq_other (c : Char) (cs : List Char) (hc : ¬ (c = ',' ∨ c = '\n')) :
    parseFieldUnq (c :: cs) =
      (c :: (parseFieldUnq cs).1, (parseFieldUnq cs).2) := by
  simp only [parseFieldUnq, if_neg hc]

theorem parseFieldUnq_append (f : List Char) :
    ∀ rest : List Char, f.all (fun c => !isSpecialChar c) = true →
      sepStart rest = true → parseFieldUnq (f ++ rest) = (f, rest) := by
  induction f with
  | nil =>
    intro rest _ hr
    cases rest with
    | nil => rfl
    | cons c cs =>
      have hc : c = ',' ∨ c = '\n' := by
        simpa only [sepStart, Bool.or_eq_true, beq_iff_eq] using hr
      rw [List.nil_append, parseFieldUnq_sep c cs hc]
  | cons a as ih =>
    intro rest hf hr
    simp only [List.all_cons, Bool.and_eq_true] at hf
    obtain ⟨h1, _, h3, _⟩ := notSpecial_spec hf.1
    have ha : ¬ (a = ',' ∨ a = '\n') := by
      rintro (rfl | rfl)
      · exact h1 rfl
      · exact h3 rfl
    rw [List.cons_append, parseFieldUnq_other a _ ha, ih rest hf.2 hr]

theorem parseQuoted_quote_quote (cs : List Char) :
    parseQuoted ('\"' :: '\"' :: cs) =
      (parseQuoted cs).map (fun p => ('\"' :: p.1, p.2)) := rfl

theorem parseQuoted_quote_end (c : Char) (cs : List Char) (hc : c ≠ '\"') :
    parseQuoted ('\"' :: c :: cs) = some ([], c :: cs) := by
  simp only [parseQuoted, if_pos rfl, if_neg hc, if_true]

theorem parseQuoted_other (c : Char) (cs : List Char) (hc : c ≠ '\"') :
    parseQuoted (c :: cs) = (parseQuoted cs).map (fun p => (c :: p.1, p.2)) := by
  cases cs with
  | nil => simp only [parseQuoted, if_neg hc, Option.map_none']
  | cons c2 cs2 => simp only [parseQuoted, if_neg hc]

theorem parseQuoted_escQuote (f : List Char) :
    ∀ rest : List Char, sepStart rest = true →
      parseQuoted (escQuote f ++ '\"' :: rest) = some (f, rest) := by
  induction f with
  | nil =>
    intro rest hr
    show parseQuoted ('\"' :: rest) = some ([], rest)
    cases rest with
    | nil => rfl
    | cons c cs => exact parseQuoted_quote_end c cs (sepStart_not_quote hr c cs rfl)
  | cons a as ih =>
    intro rest hr
    by_cases ha : a = '\"'
    · subst ha
      have h1 : escQuote ('\"' :: as) ++ '\"' :: rest
          = '\"' :: '\"' :: (escQuote as ++ '\"' :: rest) := by
        simp [escQuote]
      rw [h1, parseQuoted_quote_quote, ih rest hr]
      rfl
    · have h1 : escQuote (a :: as) ++ '\"' :: rest
          = a :: (escQuote as ++ '\"' :: rest) := by
        simp [escQuote, ha]
      rw [h1, parseQuoted_other a _ ha, ih rest hr]
      rfl

theorem parseField_quote (cs : List Char) :
    parseField ('\"' :: cs) = parseQuoted cs := rfl

theorem parseField_other (c : Char) (cs : List Char) (hc : c ≠ '\"') :
    parseField (c :: cs) = some (parseFieldUnq (c :: cs)) := by
  simp only [parseField, if_neg hc]

theorem parseField_writeField (s : List Char) :
    ∀ rest : List Char, sepStart rest = true →
      parseField (writeField s ++ rest) = some (s, rest) := by
  intro rest hr
  by_cases hq : needsQuote s = true
  · rw [writeField, if_pos hq]
    have hassoc : ('\"' :: (escQuote s ++ ['\"'])) ++ rest
        = '\"' :: (escQuote s ++ '\"' :: rest) := by simp
    rw [hassoc, parseField_quote]
    exact parseQuoted_escQuote s rest hr
  · rw [writeField, if_neg hq]
    simp only [needsQuote, List.any_eq_true, not_exists, not_and] at hq
    have hall : s.all (fun c => !isSpecialChar c) = true := by
      rw [List.all_eq_true]
      intro c hc
      simpa using hq c hc
    cases s with
    | nil =>
      cases rest with
      | nil => rfl
      | cons c cs =>
        rw [List.nil_append, parseField_other c cs (sepStart_not_quote hr c cs rfl)]
        have hc : c = ',' ∨ c = '\n' := by
          simpa only [sepStart, Bool.or_eq_true, beq_iff_eq] using hr
        rw [parseFieldUnq_sep c cs hc]
    | cons a as =>
      have ha : a ≠ '\"' :=
        (notSpecial_spec (List.all_eq_true.mp hall a (List.mem_cons_self a as))).2.1
      rw [List.cons_append, parseField_other a _ ha]
      have := parseFieldUnq_append (a :: as) rest hall hr
      rw [List.cons_append] at this
      rw [this]

theorem parseRecAux_writeFields (fs : List (List Char)) :
    ∀ (fuel : Nat) (rest : List Char), fs ≠ [] → fs.length ≤ fuel →
      parseRecAux fuel (writeFields fs ++ '\n' :: rest) = some (fs, rest) := by
  induction fs with
  | nil => intro fuel rest hne _; exact absurd rfl hne
  | cons f gs ih =>
    intro fuel rest _ hlen
    cases fuel with
    | zero => simp at hlen
    | succ fuel =>
      cases gs with
      | nil =>
        show parseRecAux (fuel + 1) (writeField f ++ '\n' :: rest) = some ([f], rest)
        simp only [parseRecAux]
        rw [parseField_writeField f ('\n' :: rest) rfl]
        rfl
      | cons g gs2 =>
        show parseRecAux (fuel + 1)
            ((writeField f ++ ',' :: writeFields (g :: gs2)) ++ '\n' :: rest) =
          some (f :: g :: gs2, rest)
        have hassoc : (writeField f ++ ',' :: writeFields (g :: gs2)) ++ '\n' :: rest
            = writeField f ++ ',' :: (writeFields (g :: gs2) ++ '\n' :: rest) := by
          simp
        rw [hassoc]
        simp only [parseRecAux]
        rw [parseField_writeField f (',' :: (writeFields (g :: gs2) ++ '\n' :: rest)) rfl]
        have hlen2 : (g :: gs2).length ≤ fuel := by
          simp only [List.length_cons] at hlen ⊢
          omega
        show Option.map (fun p => (f :: p.1, p.2))
            (parseRecAux fuel (writeFields (g :: gs2) ++ '\n' :: rest)) =
          some (f :: g :: gs2, rest)
        rw [ih fuel rest (by simp) hlen2]
        rfl

theorem length_le_writeFields (fs : List (List Char)) :
    fs.length ≤ (writeFields fs).length + 1 := by
  induction fs with
  | nil => simp [writeFields]
  | cons f gs ih =>
    cases gs with
    | nil => simp [writeFields]
    | cons g gs2 =>
      simp only [writeFields, List.length_append, List.length_cons] at ih ⊢
      omega

theorem length_le_writeLines (rows : List (List (List Char))) :
    rows.length ≤ (writeLines rows).length := by
  induction rows with
  | nil => simp [writeLines]
  | cons r rs ih =>
    simp only [writeLines, List.length_append, List.length_cons]
    omega

theorem parseRowsAux_writeLines (rows : List (List (List Char))) :
    ∀ fuel : Nat, (∀ r ∈ rows, r ≠ []) → rows.length ≤ fuel →
      parseRowsAux fuel (writeLines rows) = some rows := by
  induction rows with
  | nil =>
    intro fuel _ _
    cases fuel <;> rfl
  | cons r rs ih =>
    intro fuel hne hlen
    cases fuel with
    | zero => simp at hlen
    | succ fuel =>
      cases hl : writeFields r ++ '\n' :: writeLines rs with
      | nil => simp at hl
      | cons c cs =>
        have hwl : writeLines (r :: rs) = c :: cs := by rw [writeLines, hl]
        rw [hwl]
        simp only [parseRowsAux]
        rw [← hl]
        have hfuel2 : r.length ≤ (writeFields r ++ '\n' :: writeLines rs).length + 1 := by
          have := length_le_writeFields r
          simp only [List.length_append, List.length_cons]
          omega
        rw [parseRecAux_writeFields r
          ((writeFields r ++ '\n' :: writeLines rs).length + 1)
          (writeLines rs) (hne r (List.mem_cons_self r rs)) hfuel2]
        have hlen2 : rs.length ≤ fuel := by
          simp only [List.length_cons] at hlen
          omega
        show Option.map (fun l => r :: l) (parseRowsAux fuel (writeLines rs)) = some (r :: rs)
        rw [ih fuel (fun x hx => hne x (List.mem_cons.mpr (Or.inr hx))) hlen2]
        rfl

/-- A cell is safe for the textual round trip when it is missing or its
text is not one of the NA tokens of the reader (the empty string is an NA
token). -/
def goodCell : Cell → Bool
  | none => true
  | some s => !naTokens.contains s

theorem toCell_cellContent (c : Cell) (h : goodCell c = true) :
    toCell (cellContent c) = c := by
  cases c with
  | none => rfl
  | some s =>
    have hna : String.mk s.data ∉ naTokens := by
      have h2 : naTokens.contains s = false := by simpa [goodCell] using h
      have h3 : s ∉ naTokens := by simpa using h2
      intro hmem
      exact h3 hmem
    simp only [cellContent, toCell, if_neg hna]

/-- C8 amended: the textual round trip holds for every well-formed table
with at least one column, pairwise-distinct non-empty column names, and no
present cell equal to an NA token of the reader; such cells (and empty
strings, which export like missing values) are exactly where the round trip
fails, as the counterexample shows. -/
theorem C8_roundtrip_amended (t : Table)
    (hWF : WF t) (hhd : t.header ≠ []) (_hnodup : t.header.Nodup)
    (_hhdok : ∀ h ∈ t.header, h ≠ "")
    (hcells : ∀ r ∈ t.rows, ∀ c ∈ r, goodCell c = true) :
    read_csv (convert_df_to_csv t) = some t := by
  have hne : ∀ r ∈ (t.header.map String.data) :: t.rows.map (fun r => r.map cellContent),
      r ≠ [] := by
    intro r hr
    rcases List.mem_cons.mp hr with rfl | hr2
    · simpa using hhd
    · obtain ⟨row, hrow, rfl⟩ := List.mem_map.mp hr2
      have hlen := hWF row hrow
      intro hnil
      have hrow0 : row = [] := by simpa using hnil
      rw [hrow0] at hlen
      exact hhd (List.length_eq_zero.mp hlen.symm)
  have hfuel : ((t.header.map String.data) :: t.rows.map (fun r => r.map cellContent)).length ≤
      (writeLines ((t.header.map String.data) :: t.rows.map (fun r => r.map cellContent))).length
        + 1 := by
    have := length_le_writeLines
      ((t.header.map String.data) :: t.rows.map (fun r => r.map cellContent))
    omega
  rw [read_csv, convert_df_to_csv, parseRowsAux_writeLines _ _ hne hfuel]
  have hhdr : (t.header.map String.data).map String.mk = t.header := by
    rw [List.map_map]
    have : ∀ h ∈ t.header, (String.mk ∘ String.data) h = id h := fun h _ => rfl
    rw [List.map_congr_left this, List.map_id]
  have hrows : (t.rows.map (fun r => r.map cellContent)).map (fun r => r.map toCell)
      = t.rows := by
    rw [List.map_map]
    have : ∀ row ∈ t.rows,
        ((fun r => List.map toCell r) ∘ fun r => List.map cellContent r) row = id row := by
      intro row hrow
      show (row.map cellContent).map toCell = row
      rw [List.map_map]
      have h2 : ∀ c ∈ row, (toCell ∘ cellContent) c = id c := by
        intro c hc
        exact toCell_cellContent c (hcells row hrow c hc)
      rw [List.map_congr_left h2, List.map_id]
    rw [List.map_congr_left this, List.map_id]
  show some ⟨(t.header.map String.data).map String.mk,
      (t.rows.map (fun r => r.map cellContent)).map (fun r => r.map toCell)⟩ = some t
  rw [hhdr, hrows]

/-- A filtered table exercising a comma, an embedded quote, a newline and a
missing value. -/
def exportTable : Table :=
  ⟨["国家", "渠道"],
   [[some "United States", some "EDM, KOL"],
    [none, some "Say \"hi\"\nnow"]]⟩

/-- Witness for C8: the amended round trip on `exportTable`. -/
theorem C8_roundtrip_witness :
    (WF exportTable ∧ exportTable.header ≠ [] ∧ exportTable.header.Nodup ∧
      (∀ h ∈ exportTable.header, h ≠ "") ∧
      (∀ r ∈ exportTable.rows, ∀ c ∈ r, goodCell c = true)) ∧
    read_csv (convert_df_to_csv exportTable) = some exportTable :=
  ⟨⟨by decide, by decide, by decide, by decide, by decide⟩,
   C8_roundtrip_amended exportTable (by decide) (by decide) (by decide)
     (by decide) (by decide)⟩

end CoCreate
